import Mathlib

/-!
Verification of the Watchtower SDK state-synchronization engine (`Sync` class,
src/dist/index.mjs). The definitions below are a shallow embedding of that
class: JS records become association lists of string keys and JSON values,
JS numbers become exact rationals, timer-driven methods become pure functions
on an explicit `SyncState`, and the WebSocket send becomes an explicit list of
outbound messages. Each embedded function names the source method it mirrors.
-/

namespace Watchtower

/-- A JSON-compatible field value as the engine manipulates it: the claims
only ever exercise numbers (`typeof v === "number"`) and non-numbers, so the
non-number side is represented by strings. JS numbers are embedded as exact
rationals. -/
inductive Value where
  | num (q : ℚ)
  | str (s : String)
deriving DecidableEq, Repr

/-- A peer record: a JS object, i.e. an ordered association list of fields
(JS objects preserve key insertion order). -/
abbrev Rec := List (String × Value)

/-- JS property read `obj[k]`: first binding of `k`, if any. -/
def getKey {α : Type} : List (String × α) → String → Option α
  | [], _ => none
  | (k', v) :: t, k => if k' = k then some v else getKey t k

/-- JS property write `obj[k] = v`: replace the value at an existing key in
place, otherwise append the new key at the end (JS insertion-order
semantics). -/
def setKey {α : Type} : List (String × α) → String → α → List (String × α)
  | [], k, v => [(k, v)]
  | (k', v') :: t, k, v =>
      if k' = k then (k, v) :: t else (k', v') :: setKey t k v

/-- JS `delete obj[k]` / `Map.delete(k)`. -/
def eraseKey {α : Type} (l : List (String × α)) (k : String) :
    List (String × α) :=
  l.filter (fun kv => kv.1 ≠ k)

theorem getKey_setKey_self {α : Type} (l : List (String × α)) (k : String)
    (v : α) : getKey (setKey l k v) k = some v := by
  induction l with
  | nil => simp [setKey, getKey]
  | cons kv t ih =>
      by_cases h : kv.1 = k
      · simp [setKey, h, getKey]
      · simp [setKey, h, getKey, ih]

theorem getKey_setKey_ne {α : Type} (l : List (String × α)) (k k' : String)
    (v : α) (h : k' ≠ k) : getKey (setKey l k' v) k = getKey l k := by
  induction l with
  | nil => simp [setKey, getKey, h]
  | cons kv t ih =>
      by_cases hk : kv.1 = k'
      · simp [setKey, hk, getKey, h]
      · simp only [setKey, hk, if_neg hk, getKey]
        by_cases hk2 : kv.1 = k
        · simp [hk2]
        · simp [hk2, ih]

theorem getKey_eraseKey_self {α : Type} (l : List (String × α)) (k : String) :
    getKey (eraseKey l k) k = none := by
  induction l with
  | nil => simp [eraseKey, getKey]
  | cons kv t ih =>
      by_cases h : kv.1 = k
      · simpa [eraseKey, h] using ih
      · simpa [eraseKey, h, getKey] using ih

/-- A timestamped snapshot of one peer's record
(`{ time, state }` entries of `Sync.snapshots`). -/
structure Snapshot where
  time : ℚ
  state : Rec
deriving DecidableEq, Repr

/-- The `while (playerSnapshots.length > 10) playerSnapshots.shift()` loop of
`Sync.addSnapshot` (src/dist/index.mjs:524-526): drop from the front until at
most 10 entries remain. -/
def evictOldest (l : List Snapshot) : List Snapshot :=
  if h : l.length > 10 then evictOldest l.tail else l
termination_by l.length
decreasing_by
  cases l with
  | nil => simp at h
  | cons a t => simpa using Nat.lt_succ_self t.length

theorem evictOldest_eq_drop (l : List Snapshot) :
    evictOldest l = l.drop (l.length - 10) := by
  by_cases h : l.length > 10
  · rw [evictOldest, dif_pos h]
    cases l with
    | nil => simp at h
    | cons a t =>
        have ht := evictOldest_eq_drop t
        simp only [List.tail_cons] at *
        rw [ht]
        have hlen : t.length ≥ 10 := by
          simp only [List.length_cons] at h; omega
        have : (a :: t).length - 10 = (t.length - 10) + 1 := by
          simp only [List.length_cons]; omega
        rw [this, List.drop_succ_cons]
  · rw [evictOldest, dif_neg h]
    have : l.length - 10 = 0 := by omega
    simp [this]
termination_by l.length
decreasing_by
  cases l with
  | nil => simp at h
  | cons a t => simpa using Nat.lt_succ_self t.length

theorem evictOldest_length (l : List Snapshot) :
    (evictOldest l).length = min l.length 10 := by
  rw [evictOldest_eq_drop, List.length_drop]
  omega

/-- The per-peer buffer effect of `Sync.addSnapshot`
(src/dist/index.mjs:520-526): push the new snapshot at the back, then evict
from the front while the buffer exceeds 10 entries. -/
def addSnapshotBuf (buf : List Snapshot) (s : Snapshot) : List Snapshot :=
  evictOldest (buf ++ [s])

theorem addSnapshotBuf_length (buf : List Snapshot) (s : Snapshot) :
    (addSnapshotBuf buf s).length = min (buf.length + 1) 10 := by
  rw [addSnapshotBuf, evictOldest_length]
  simp

/-- `Sync.lerpState(target, from, to, alpha)` (src/dist/index.mjs:688-700):
for each key of `to`, numeric fields in both `from` and `to` are moved to
`from + (to - from) * alpha`; otherwise the value snaps to `to`'s value once
`alpha > 0.5`. The JS parameters `from` and `to` are Lean keywords and are
called `source` and `toRec` here. At the call sites that pass the same object
as `target` and `from`, the JS in-place writes never affect a later read
(each iteration reads and writes only its own key, and object keys are
distinct), so passing the unmodified record as `source` is extensionally the
same. -/
def lerpState (target source toRec : Rec) (alpha : ℚ) : Rec :=
  toRec.foldl
    (fun tgt kv =>
      match getKey source kv.1, kv.2 with
      | some (Value.num a), Value.num b =>
          setKey tgt kv.1 (Value.num (a + (b - a) * alpha))
      | _, _ => if alpha > 1/2 then setKey tgt kv.1 kv.2 else tgt)
    target

theorem lerpState_getKey_not_mem (target source toRec : Rec) (alpha : ℚ)
    (k : String) (hk : k ∉ toRec.map Prod.fst) :
    getKey (lerpState target source toRec alpha) k = getKey target k := by
  induction toRec generalizing target with
  | nil => rfl
  | cons kv t ih =>
      simp only [List.map_cons, List.mem_cons, not_or] at hk
      obtain ⟨hk1, hk2⟩ := hk
      show getKey (lerpState _ source t alpha) k = getKey target k
      rw [ih _ hk2]
      rcases h1 : getKey source kv.1 with _ | v1
      · simp only [h1]
        split
        · exact getKey_setKey_ne _ _ _ _ (fun h => hk1 h.symm)
        · rfl
      · rcases v1 with q | s <;> rcases h2 : kv.2 with q2 | s2 <;>
          simp only [h1, h2] <;>
          first
          | exact getKey_setKey_ne _ _ _ _ (fun h => hk1 h.symm)
          | (split
             · exact getKey_setKey_ne _ _ _ _ (fun h => hk1 h.symm)
             · rfl)

/-- Field-level behaviour of `lerpState` on a numeric field: if `k` maps to
number `a` in `source` and number `b` in `toRec` (and `toRec` has no
duplicate keys, as JS object key lists never do), then the output maps `k`
to `a + (b - a) * alpha`. -/
theorem lerpState_num_field (target source toRec : Rec) (alpha : ℚ)
    (k : String) (a b : ℚ) (hnd : (toRec.map Prod.fst).Nodup)
    (hs : getKey source k = some (Value.num a))
    (ht : getKey toRec k = some (Value.num b)) :
    getKey (lerpState target source toRec alpha) k
      = some (Value.num (a + (b - a) * alpha)) := by
  induction toRec generalizing target with
  | nil => simp [getKey] at ht
  | cons kv t ih =>
      obtain ⟨k1, v1⟩ := kv
      simp only [List.map_cons, List.nodup_cons] at hnd
      obtain ⟨hnotin, hndt⟩ := hnd
      by_cases hk : k1 = k
      · subst hk
        have hv : v1 = Value.num b := by
          rw [getKey, if_pos rfl] at ht
          exact Option.some.inj ht
        subst hv
        show getKey (lerpState _ source t alpha) k1 = _
        rw [lerpState_getKey_not_mem _ _ _ _ _ (by simpa using hnotin)]
        simp only [hs]
        exact getKey_setKey_self _ _ _
      · have ht' : getKey t k = some (Value.num b) := by
          rwa [getKey, if_neg hk] at ht
        show getKey (lerpState _ source t alpha) k = _
        exact ih _ hndt ht'

/-- One step of the before/after scan of `Sync.updateInterpolation`
(src/dist/index.mjs:669-675): a snapshot with `time <= renderTime` replaces
`before`; otherwise it becomes `after` if `after` is still unset. -/
def scanStep (renderTime : ℚ) (ba : Option Snapshot × Option Snapshot)
    (snap : Snapshot) : Option Snapshot × Option Snapshot :=
  if snap.time ≤ renderTime then (some snap, ba.2)
  else if ba.2.isNone then (ba.1, some snap) else ba

/-- The before/after scan of `Sync.updateInterpolation`
(src/dist/index.mjs:667-675), starting from `before = after = null`. -/
def scanBeforeAfter (snaps : List Snapshot) (renderTime : ℚ) :
    Option Snapshot × Option Snapshot :=
  snaps.foldl (scanStep renderTime) (none, none)

theorem scan_foldl_before_le (rt : ℚ) (snaps : List Snapshot) :
    ∀ init : Option Snapshot × Option Snapshot,
      (∀ b0, init.1 = some b0 → b0.time ≤ rt) →
      ∀ b1, (snaps.foldl (scanStep rt) init).1 = some b1 → b1.time ≤ rt := by
  induction snaps with
  | nil => intro init hinit b1 hfold; exact hinit b1 hfold
  | cons s t ih =>
      intro init hinit b1 hfold
      simp only [List.foldl_cons] at hfold
      refine ih _ ?_ b1 hfold
      intro b0 hb0
      unfold scanStep at hb0
      by_cases hs : s.time ≤ rt
      · simp only [if_pos hs] at hb0
        exact (Option.some.inj hb0) ▸ hs
      · simp only [if_neg hs] at hb0
        split at hb0
        · exact hinit b0 hb0
        · exact hinit b0 hb0

theorem scan_foldl_after_gt (rt : ℚ) (snaps : List Snapshot) :
    ∀ init : Option Snapshot × Option Snapshot,
      (∀ a0, init.2 = some a0 → rt < a0.time) →
      ∀ a1, (snaps.foldl (scanStep rt) init).2 = some a1 → rt < a1.time := by
  induction snaps with
  | nil => intro init hinit a1 hfold; exact hinit a1 hfold
  | cons s t ih =>
      intro init hinit a1 hfold
      simp only [List.foldl_cons] at hfold
      refine ih _ ?_ a1 hfold
      intro a0 ha0
      unfold scanStep at ha0
      by_cases hs : s.time ≤ rt
      · simp only [if_pos hs] at ha0
        exact hinit a0 ha0
      · simp only [if_neg hs] at ha0
        split at ha0
        · simp only at ha0
          exact (Option.some.inj ha0) ▸ (lt_of_not_le hs)
        · exact hinit a0 ha0

/-- If the scan produced a `before`, its timestamp is at or before the render
time (the scan only stores a snapshot as `before` under that test). -/
theorem scanBeforeAfter_before_le (snaps : List Snapshot) (rt : ℚ)
    (b : Snapshot) (h : (scanBeforeAfter snaps rt).1 = some b) :
    b.time ≤ rt :=
  scan_foldl_before_le rt snaps (none, none) (by simp) b h

/-- If the scan produced an `after`, its timestamp is strictly after the
render time. -/
theorem scanBeforeAfter_after_gt (snaps : List Snapshot) (rt : ℚ)
    (a : Snapshot) (h : (scanBeforeAfter snaps rt).2 = some a) :
    rt < a.time :=
  scan_foldl_after_gt rt snaps (none, none) (by simp) a h

/-- The per-peer body of `Sync.updateInterpolation`
(src/dist/index.mjs:663-686): scan the peer's snapshots around the render
time, then either linearly interpolate between the bracketing snapshots
(fraction `elapsed/total`, clamped at 1, with `alpha = 1` when the two
timestamps coincide) or nudge 30% toward the single snapshot found. -/
def interpolatePlayer (player : Rec) (snaps : List Snapshot)
    (renderTime : ℚ) : Rec :=
  match scanBeforeAfter snaps renderTime with
  | (some b, some a) =>
      let total := a.time - b.time
      let elapsed := renderTime - b.time
      let alpha := if total > 0 then min 1 (elapsed / total) else 1
      lerpState player b.state a.state alpha
  | (some b, none) => lerpState player player b.state (3/10)
  | (none, some a) => lerpState player player a.state (3/10)
  | (none, none) => player

theorem mem_evictOldest {x : Snapshot} {l : List Snapshot}
    (h : x ∈ evictOldest l) : x ∈ l := by
  rw [evictOldest_eq_drop] at h
  exact (List.drop_sublist _ _).subset h

theorem addSnapshotBuf_sorted (buf : List Snapshot) (s : Snapshot)
    (hbuf : (buf.map Snapshot.time).Sorted (· ≤ ·))
    (hle : ∀ x ∈ buf, x.time ≤ s.time) :
    ((addSnapshotBuf buf s).map Snapshot.time).Sorted (· ≤ ·) := by
  have happ : ((buf ++ [s]).map Snapshot.time).Sorted (· ≤ ·) := by
    rw [List.map_append]
    rw [List.Sorted, List.pairwise_append]
    refine ⟨hbuf, by simp, ?_⟩
    intro t1 ht1 t2 ht2
    simp only [List.map_cons, List.map_nil, List.mem_cons,
      List.not_mem_nil, or_false] at ht2
    obtain ⟨x, hx, rfl⟩ := List.mem_map.mp ht1
    exact ht2 ▸ hle x hx
  rw [addSnapshotBuf, evictOldest_eq_drop, List.map_drop]
  exact List.Pairwise.sublist (List.drop_sublist _ _) happ

/-- Inserting a batch of snapshots whose timestamps are pairwise
non-decreasing (and at or after everything already buffered) keeps the
buffer's timestamps sorted. -/
theorem foldl_addSnapshotBuf_sorted (inserts : List Snapshot) :
    ∀ buf : List Snapshot,
      (buf.map Snapshot.time).Sorted (· ≤ ·) →
      (∀ x ∈ buf, ∀ y ∈ inserts, x.time ≤ y.time) →
      inserts.Pairwise (fun x y => x.time ≤ y.time) →
      (((inserts.foldl addSnapshotBuf buf).map Snapshot.time).Sorted
        (· ≤ ·)) := by
  induction inserts with
  | nil => intro buf hbuf _ _; exact hbuf
  | cons s t ih =>
      intro buf hbuf hcross hins
      simp only [List.foldl_cons]
      rw [List.pairwise_cons] at hins
      refine ih _ ?_ ?_ hins.2
      · exact addSnapshotBuf_sorted buf s hbuf
          (fun x hx => hcross x hx s (by simp))
      · intro x hx y hy
        have hx' : x ∈ buf ++ [s] := mem_evictOldest hx
        rcases List.mem_append.mp hx' with h1 | h1
        · exact hcross x h1 y (List.mem_cons_of_mem _ hy)
        · simp only [List.mem_singleton] at h1
          exact h1 ▸ hins.1 y hy

/-- The recognized configuration of `Sync` after constructor normalization
(src/dist/index.mjs:286-294). Times are in milliseconds. -/
structure SyncOptions where
  tickRate : ℚ
  interpolate : Bool
  interpolationDelay : ℚ
  jitterBuffer : ℚ
  autoReconnect : Bool
  maxReconnectAttempts : ℕ
deriving DecidableEq, Repr

/-- The defaults applied by the `Sync` constructor
(src/dist/index.mjs:286-294). -/
def defaultOptions : SyncOptions :=
  { tickRate := 20
    interpolate := true
    interpolationDelay := 100
    jitterBuffer := 0
    autoReconnect := true
    maxReconnectAttempts := 10 }

/-- An entry of `Sync.jitterQueue` (src/dist/index.mjs:502-507):
`{ deliverAt, playerId, state, timestamp }`. -/
structure JitterItem where
  deliverAt : ℚ
  playerId : String
  state : Rec
  timestamp : ℚ
deriving DecidableEq, Repr

/-- An outbound wire message produced by the broadcast tick
(`{type:"state", data}`, src/dist/index.mjs:653-656). -/
inductive OutMsg where
  | state (data : Rec)
deriving DecidableEq, Repr

/-- The mutable fields of a `Sync` instance that the verified methods touch
(src/dist/index.mjs:260-295). `players` is the peer collection inside the
bound state object, taken as already resolved by `findPlayersKey` (every
claim operates on a state whose collection resolves; when resolution fails
the methods no-op). `lastSentState` is `none` for the initial empty string;
comparing the deterministic serializations of two records is modeled as
record equality (serialization is injective on this value domain). Interval
handles become booleans, the pending reconnect timer becomes its delay in
milliseconds, and scalar metrics fields not touched by any claim
(`_playerCount`, `_latency`, `pingStartTime`) are omitted. -/
structure SyncState where
  myId : String
  options : SyncOptions
  players : List (String × Rec)
  snapshots : List (String × List Snapshot)
  jitterQueue : List JitterItem
  lastSentState : Option Rec
  roomId : Option String
  wsOpen : Bool
  syncLoopOn : Bool
  interpLoopOn : Bool
  pingLoopOn : Bool
  reconnectAttempts : ℕ
  reconnectTimeout : Option ℕ
  isReconnecting : Bool
  serverTimeOffset : ℚ
deriving DecidableEq, Repr

/-- `Sync.syncMyState` (src/dist/index.mjs:643-657): on a broadcast tick, if
the socket is open and the local peer's record exists, serialize it; if the
serialization equals the last-sent one, do nothing; otherwise remember it as
last-sent and transmit a `state` message. Returns the updated state and the
list of transmitted messages. -/
def syncMyState (s : SyncState) : SyncState × List OutMsg :=
  if s.wsOpen = false then (s, [])
  else
    match getKey s.players s.myId with
    | none => (s, [])
    | some myState =>
        if s.lastSentState = some myState then (s, [])
        else ({ s with lastSentState := some myState },
              [OutMsg.state myState])

/-- `Sync.applyStateDirect` (src/dist/index.mjs:535-540): overwrite the
peer's entry wholesale. -/
def applyStateDirect (s : SyncState) (pid : String) (rec : Rec) :
    SyncState :=
  { s with players := setKey s.players pid rec }

/-- `Sync.addSnapshot` (src/dist/index.mjs:514-534): append a timestamped
snapshot to the peer's buffer (`timestamp || Date.now()` — a zero timestamp
is falsy in JS and is replaced by the current time), evict from the front
down to 10 entries, and seed the live record when the peer is new to the
buffer or absent from the collection. -/
def addSnapshot (now : ℚ) (s : SyncState) (pid : String) (rec : Rec)
    (ts : ℚ) : SyncState :=
  let isNewPlayer := (getKey s.snapshots pid).isNone
  let buf := (getKey s.snapshots pid).getD []
  let time := if ts = 0 then now else ts
  let buf2 := addSnapshotBuf buf { time := time, state := rec }
  let players2 :=
    if isNewPlayer ∨ (getKey s.players pid).isNone
    then setKey s.players pid rec else s.players
  { s with snapshots := setKey s.snapshots pid buf2, players := players2 }

/-- `Sync.applyPlayerState` (src/dist/index.mjs:499-513): adjust the server
timestamp by the current clock offset (`serverTime` is checked for JS
truthiness, so an absent or zero value falls back to the local clock), then
route the record through the jitter queue, straight into the snapshot
buffer, or directly into the collection, according to the options. -/
def applyPlayerState (now : ℚ) (s : SyncState) (pid : String) (rec : Rec)
    (serverTime : Option ℚ) : SyncState :=
  let timestamp :=
    match serverTime with
    | some st => if st = 0 then now else st + s.serverTimeOffset
    | none => now
  if s.options.interpolate ∧ 0 < s.options.jitterBuffer then
    { s with jitterQueue := s.jitterQueue ++
        [{ deliverAt := timestamp + s.options.jitterBuffer, playerId := pid,
           state := rec, timestamp := timestamp }] }
  else if s.options.interpolate then addSnapshot now s pid rec timestamp
  else applyStateDirect s pid rec

/-- `Sync.processJitterQueue` (src/dist/index.mjs:629-636): split the queue
at the current time, keep the not-yet-due items queued, and promote each due
item into the snapshot buffer with the item's original `timestamp`. -/
def processJitterQueue (now : ℚ) (s : SyncState) : SyncState :=
  let ready := s.jitterQueue.filter (fun it => decide (it.deliverAt ≤ now))
  let rest := s.jitterQueue.filter (fun it => decide (now < it.deliverAt))
  ready.foldl (fun st it => addSnapshot now st it.playerId it.state
    it.timestamp) { s with jitterQueue := rest }

/-- `Sync.removePlayer` (src/dist/index.mjs:541-547): delete the peer's
collection entry and its snapshot buffer. The jitter queue is not touched. -/
def removePlayer (s : SyncState) (pid : String) : SyncState :=
  { s with players := eraseKey s.players pid,
           snapshots := eraseKey s.snapshots pid }

/-- `Sync.attemptReconnect` (src/dist/index.mjs:548-568): refuse once the
attempt ceiling is reached; otherwise increment the attempt counter and
schedule a retry after `min(1000 * 2^(attempts - 1), 30000)` ms. -/
def attemptReconnect (s : SyncState) : SyncState :=
  if s.reconnectAttempts ≥ s.options.maxReconnectAttempts then s
  else
    let attempts2 := s.reconnectAttempts + 1
    { s with isReconnecting := true
             reconnectAttempts := attempts2
             reconnectTimeout := some (min (1000 * 2 ^ (attempts2 - 1)) 30000) }

/-- `Sync.clearRemotePlayers` (src/dist/index.mjs:569-580): delete every
collection entry other than the local peer's and discard all snapshots and
queued jitter items. -/
def clearRemotePlayers (s : SyncState) : SyncState :=
  { s with players := s.players.filter (fun kv => decide (kv.1 = s.myId))
           snapshots := []
           jitterQueue := [] }

/-- `Sync.leave` (src/dist/index.mjs:332-348): cancel any pending reconnect
timer, stop all timers, close the socket, clear remote peers and all
buffered reception state, and forget the room id. -/
def leave (s : SyncState) : SyncState :=
  let s1 := { s with reconnectTimeout := none
                     isReconnecting := false
                     syncLoopOn := false
                     interpLoopOn := false
                     pingLoopOn := false
                     wsOpen := false }
  let s2 := clearRemotePlayers s1
  { s2 with snapshots := [], jitterQueue := [], roomId := none }

/-- The `onclose` handler installed by `Sync.connectWebSocket`
(src/dist/index.mjs:437-443): stop the broadcast loop and start the
reconnection machinery only when auto-reconnect is on, a room is still
joined, and no reconnection is already in flight. -/
def handleClose (s : SyncState) : SyncState :=
  let s1 := { s with wsOpen := false, syncLoopOn := false }
  if s1.options.autoReconnect ∧ s1.roomId.isSome ∧ ¬ s1.isReconnecting
  then attemptReconnect s1 else s1

/-- `Sync.updateInterpolation` (src/dist/index.mjs:658-687): compute the
render time, then for every buffered peer other than the local one whose
live record exists, rewrite the live record through `interpolatePlayer`. -/
def updateInterpolation (now : ℚ) (s : SyncState) : SyncState :=
  let renderTime := now - s.options.interpolationDelay
  let players2 :=
    s.snapshots.foldl
      (fun ps entry =>
        if entry.1 = s.myId then ps
        else
          match getKey ps entry.1 with
          | none => ps
          | some player =>
              setKey ps entry.1 (interpolatePlayer player entry.2
                renderTime))
      s.players
  { s with players := players2 }

/-- Modelled from the spec: the `lerp` smoothing mode of §4.5. This snapshot
of the repository carries only the declarations of that mode
(`lerpTargets`, `setLerpTarget`, `updateLerp` and the
`smoothing`/`lerpFactor` options in src/dist/index.d.mts) and its README
description; the implementing source is missing, so the step is modelled
from the spec's words: every render tick, move each numeric field of the
live record by the fixed fraction `lerpFactor` of the remaining distance to
the target record; non-numeric fields copy through immediately. -/
def lerpStep (lerpFactor : ℚ) (live target : Rec) : Rec :=
  target.foldl
    (fun lv kv =>
      match getKey lv kv.1, kv.2 with
      | some (Value.num a), Value.num b =>
          setKey lv kv.1 (Value.num (a + (b - a) * lerpFactor))
      | _, _ => setKey lv kv.1 kv.2)
    live

/-- Modelled from the spec: `n` render ticks of the `lerp` smoothing mode
against a fixed target record. -/
def renderTicks (f : ℚ) (target : Rec) : ℕ → Rec → Rec
  | 0, live => live
  | n + 1, live => lerpStep f (renderTicks f target n live) target

theorem lerpStep_single (f a b : ℚ) (k : String) :
    lerpStep f [(k, Value.num a)] [(k, Value.num b)]
      = [(k, Value.num (a + (b - a) * f))] := by
  simp [lerpStep, getKey, setKey]

/-- A base `Sync` instance directly after construction with no options
passed (src/dist/index.mjs:260-295), used to build concrete states. -/
def baseState : SyncState :=
  { myId := "me"
    options := defaultOptions
    players := []
    snapshots := []
    jitterQueue := []
    lastSentState := none
    roomId := none
    wsOpen := false
    syncLoopOn := false
    interpLoopOn := false
    pingLoopOn := false
    reconnectAttempts := 0
    reconnectTimeout := none
    isReconnecting := false
    serverTimeOffset := 0 }

/-- Claim C2: under the spec's `lerp` smoothing mode with factor `f`, each
render tick moves a numeric field by the fraction `f` of the remaining
distance to the fixed target, so after `n` render ticks the live value is
exactly `target - (target - initial) * (1 - f) ^ n`. -/
theorem claim_C2_lerp_convergence (f t i : ℚ) (n : ℕ) :
    renderTicks f [("x", Value.num t)] n [("x", Value.num i)]
      = [("x", Value.num (t - (t - i) * (1 - f) ^ n))] := by
  induction n with
  | zero =>
      show [("x", Value.num i)] = _
      rw [pow_zero, mul_one, sub_sub_cancel]
  | succ n ih =>
      show lerpStep f (renderTicks f [("x", Value.num t)] n
        [("x", Value.num i)]) [("x", Value.num t)] = _
      rw [ih, lerpStep_single]
      have h : t - (t - i) * (1 - f) ^ n
          + (t - (t - (t - i) * (1 - f) ^ n)) * f
          = t - (t - i) * (1 - f) ^ (n + 1) := by ring
      rw [h]

/-- Claim C3: when the local record serializes identically to the last-sent
serialization, a broadcast tick transmits nothing and leaves the last-sent
serialization (and the whole state) unchanged; when it differs, the tick
transmits one `state` message, and a second tick with the identical record
transmits nothing — exactly one message across the two ticks. -/
theorem claim_C3_idempotent_broadcast (s : SyncState) (rec : Rec)
    (hws : s.wsOpen = true) (hrec : getKey s.players s.myId = some rec) :
    (s.lastSentState = some rec → syncMyState s = (s, [])) ∧
    (s.lastSentState ≠ some rec →
      (syncMyState s).2 = [OutMsg.state rec] ∧
      syncMyState (syncMyState s).1 = ((syncMyState s).1, []) ∧
      (syncMyState s).2.length
        + (syncMyState (syncMyState s).1).2.length = 1) := by
  constructor
  · intro hlast
    simp [syncMyState, hws, hrec, hlast]
  · intro hlast
    have h1 : syncMyState s
        = ({ s with lastSentState := some rec }, [OutMsg.state rec]) := by
      simp [syncMyState, hws, hrec, hlast]
    have h2 : syncMyState { s with lastSentState := some rec }
        = ({ s with lastSentState := some rec }, []) := by
      simp [syncMyState, hws, hrec]
    refine ⟨by rw [h1], by rw [h1, h2], by rw [h1, h2]; rfl⟩

/-- A concrete connected instance whose local record is `{x:1}` and whose
last-sent serialization is still empty. -/
def connectedState : SyncState :=
  { baseState with
      wsOpen := true
      players := [("me", [("x", Value.num 1)])] }

/-- Claim C3 witness: on `connectedState` the record `{x:1}` is transmitted
exactly once across two consecutive ticks. -/
theorem claim_C3_witness :
    connectedState.wsOpen = true ∧
    getKey connectedState.players "me" = some [("x", Value.num 1)] ∧
    (syncMyState connectedState).2 = [OutMsg.state [("x", Value.num 1)]] ∧
    (syncMyState connectedState).2.length
      + (syncMyState (syncMyState connectedState).1).2.length = 1 := by
  have h := (claim_C3_idempotent_broadcast connectedState
    [("x", Value.num 1)] rfl rfl).2 (by simp [connectedState, baseState])
  exact ⟨rfl, rfl, h.1, h.2.2⟩

/-- Claim C4: the `n`-th reconnection attempt (attempt counter `n - 1`
before the call, below the ceiling) schedules the retry after
`min(1000 * 2^(n-1), 30000)` milliseconds and moves the counter to `n`. -/
theorem claim_C4_reconnect_backoff (s : SyncState) (n : ℕ) (hn : 1 ≤ n)
    (hatt : s.reconnectAttempts = n - 1)
    (hlt : s.reconnectAttempts < s.options.maxReconnectAttempts) :
    (attemptReconnect s).reconnectTimeout
        = some (min (1000 * 2 ^ (n - 1)) 30000) ∧
    (attemptReconnect s).reconnectAttempts = n := by
  have hge : ¬ s.reconnectAttempts ≥ s.options.maxReconnectAttempts :=
    not_le.mpr hlt
  unfold attemptReconnect
  rw [if_neg hge]
  refine ⟨?_, ?_⟩
  · simp only [Nat.add_sub_cancel, hatt]
  · simp only []
    omega

/-- Claim C4 witness: attempts 1 through 5 schedule delays of 1000, 2000,
4000, 8000 and 16000 ms, and attempt 10 is capped at 30000 ms (default
ceiling of 10 attempts). -/
theorem claim_C4_witness :
    (attemptReconnect { baseState with
        reconnectAttempts := 0 }).reconnectTimeout = some 1000 ∧
    (attemptReconnect { baseState with
        reconnectAttempts := 1 }).reconnectTimeout = some 2000 ∧
    (attemptReconnect { baseState with
        reconnectAttempts := 2 }).reconnectTimeout = some 4000 ∧
    (attemptReconnect { baseState with
        reconnectAttempts := 3 }).reconnectTimeout = some 8000 ∧
    (attemptReconnect { baseState with
        reconnectAttempts := 4 }).reconnectTimeout = some 16000 ∧
    (attemptReconnect { baseState with
        reconnectAttempts := 9 }).reconnectTimeout = some 30000 := by
  refine ⟨?_, ?_, ?_, ?_, ?_, ?_⟩
  · have h := (claim_C4_reconnect_backoff
      { baseState with reconnectAttempts := 0 } 1 (by norm_num) rfl
      (by norm_num [baseState, defaultOptions])).1
    simpa using h
  · have h := (claim_C4_reconnect_backoff
      { baseState with reconnectAttempts := 1 } 2 (by norm_num) rfl
      (by norm_num [baseState, defaultOptions])).1
    simpa using h
  · have h := (claim_C4_reconnect_backoff
      { baseState with reconnectAttempts := 2 } 3 (by norm_num) rfl
      (by norm_num [baseState, defaultOptions])).1
    simpa using h
  · have h := (claim_C4_reconnect_backoff
      { baseState with reconnectAttempts := 3 } 4 (by norm_num) rfl
      (by norm_num [baseState, defaultOptions])).1
    simpa using h
  · have h := (claim_C4_reconnect_backoff
      { baseState with reconnectAttempts := 4 } 5 (by norm_num) rfl
      (by norm_num [baseState, defaultOptions])).1
    simpa using h
  · have h := (claim_C4_reconnect_backoff
      { baseState with reconnectAttempts := 9 } 10 (by norm_num) rfl
      (by norm_num [baseState, defaultOptions])).1
    simpa using h

/-- The spec's private-field example record `{x:1,_secret:2}`. -/
def secretRec : Rec := [("x", Value.num 1), ("_secret", Value.num 2)]

/-- Claim C1, evaluated at its failing input: `syncMyState` transmits the
local record wholesale — the outbound `state` message for
`{x:1,_secret:2}` still contains the `_`-marked field `_secret`; nothing in
the broadcast path strips private fields. -/
theorem claim_C1_private_field_transmitted :
    (syncMyState { baseState with
        wsOpen := true
        players := [("me", secretRec)] }).2 = [OutMsg.state secretRec] ∧
    secretRec.any (fun kv => decide (kv.1.data.head? = some '_')) = true := by
  constructor
  · rfl
  · decide

/-- A snapshot with timestamp `t` and record `{x:0}`, for concrete buffer
experiments. -/
def snapAt (t : ℚ) : Snapshot := { time := t, state := [("x", Value.num 0)] }

/-- Claim C5 counterexample: `addSnapshot` appends without sorting, so
inserting timestamps 100 then 50 leaves the peer's buffer timestamps out of
order. -/
theorem claim_C5_counterexample :
    ¬ ((([snapAt 100, snapAt 50].foldl addSnapshotBuf []).map
        Snapshot.time).Sorted (· ≤ ·)) := by
  intro h
  have h2 : ([snapAt 100, snapAt 50].foldl addSnapshotBuf [])
      = [snapAt 100, snapAt 50] := by
    simp [addSnapshotBuf, evictOldest_eq_drop]
  rw [h2] at h
  simp only [List.map_cons, List.map_nil, List.Sorted,
    List.pairwise_cons] at h
  have := h.1 (snapAt 50).time (by simp)
  norm_num [snapAt] at this

/-- Claim C5 (amended): provided the inserted timestamps themselves arrive
in non-decreasing order, any sequence of insertions into an initially empty
buffer leaves the buffer's timestamps in non-decreasing order. -/
theorem claim_C5_sorted_insertions (inserts : List Snapshot)
    (hins : inserts.Pairwise (fun x y => x.time ≤ y.time)) :
    ((inserts.foldl addSnapshotBuf []).map Snapshot.time).Sorted
      (· ≤ ·) :=
  foldl_addSnapshotBuf_sorted inserts [] (by simp) (by simp) hins

/-- Claim C5 witness: inserting timestamps 50 then 100 keeps the buffer
sorted. -/
theorem claim_C5_witness :
    (([snapAt 50, snapAt 100].foldl addSnapshotBuf []).map
      Snapshot.time).Sorted (· ≤ ·) :=
  claim_C5_sorted_insertions [snapAt 50, snapAt 100]
    (by simp [snapAt]; norm_num)

/-- Claim C6: starting from any buffer within the bound, every insertion
sequence keeps at most 10 snapshots per peer, and an insertion into a full
buffer evicts the oldest (front) entry first. -/
theorem claim_C6_buffer_bounded :
    (∀ (start inserts : List Snapshot), start.length ≤ 10 →
      (inserts.foldl addSnapshotBuf start).length ≤ 10) ∧
    (∀ (buf : List Snapshot) (s : Snapshot), buf.length = 10 →
      addSnapshotBuf buf s = buf.tail ++ [s]) := by
  constructor
  · intro start inserts
    induction inserts generalizing start with
    | nil => intro h; exact h
    | cons s t ih =>
        intro h
        simp only [List.foldl_cons]
        apply ih
        exact le_trans (le_of_eq (addSnapshotBuf_length _ _))
          (min_le_right _ _)
  · intro buf s h
    rw [addSnapshotBuf, evictOldest_eq_drop]
    have hlen : (buf ++ [s]).length - 10 = 1 := by simp [h]
    rw [hlen]
    cases buf with
    | nil => simp at h
    | cons a t => simp

/-- A full buffer of 10 snapshots. -/
def tenBuf : List Snapshot := List.replicate 10 (snapAt 1)

/-- Claim C6 witness: a further insertion into a full 10-entry buffer stays
within the bound and drops the front entry. -/
theorem claim_C6_witness :
    ([snapAt 3].foldl addSnapshotBuf tenBuf).length ≤ 10 ∧
    addSnapshotBuf tenBuf (snapAt 2) = tenBuf.tail ++ [snapAt 2] :=
  ⟨claim_C6_buffer_bounded.1 tenBuf [snapAt 3] (by simp [tenBuf]),
   claim_C6_buffer_bounded.2 tenBuf (snapAt 2) (by simp [tenBuf])⟩

/-- Claim C7: with both a bracketing `before` and `after` found, every field
numeric in both snapshots is set to the linear interpolation between the two
snapshot values by the fraction `elapsed/total`, clamped at 1 (the fraction
is non-negative because the scan guarantees `before.time ≤ renderTime <
after.time`); with only `before` (or only `after`) found, every numeric
field of the live record moves 30% of the remaining distance toward that
snapshot's value. -/
theorem claim_C7_interpolation (player : Rec) (snaps : List Snapshot)
    (rt : ℚ) (k : String) (x y : ℚ) :
    (∀ b a, scanBeforeAfter snaps rt = (some b, some a) →
      (a.state.map Prod.fst).Nodup →
      getKey b.state k = some (Value.num x) →
      getKey a.state k = some (Value.num y) →
      b.time ≤ rt ∧ rt < a.time ∧
      getKey (interpolatePlayer player snaps rt) k
        = some (Value.num (x + (y - x) *
            min 1 ((rt - b.time) / (a.time - b.time))))) ∧
    (∀ b, scanBeforeAfter snaps rt = (some b, none) →
      (b.state.map Prod.fst).Nodup →
      getKey player k = some (Value.num x) →
      getKey b.state k = some (Value.num y) →
      getKey (interpolatePlayer player snaps rt) k
        = some (Value.num (x + (y - x) * (3/10)))) ∧
    (∀ a, scanBeforeAfter snaps rt = (none, some a) →
      (a.state.map Prod.fst).Nodup →
      getKey player k = some (Value.num x) →
      getKey a.state k = some (Value.num y) →
      getKey (interpolatePlayer player snaps rt) k
        = some (Value.num (x + (y - x) * (3/10)))) := by
  refine ⟨?_, ?_, ?_⟩
  · intro b a hscan hnd hx hy
    have hb := scanBeforeAfter_before_le snaps rt b (by rw [hscan])
    have ha := scanBeforeAfter_after_gt snaps rt a (by rw [hscan])
    have htotal : a.time - b.time > 0 := by linarith
    refine ⟨hb, ha, ?_⟩
    unfold interpolatePlayer
    rw [hscan]
    simp only [if_pos htotal]
    exact lerpState_num_field _ _ _ _ _ _ _ hnd hx hy
  · intro b hscan hnd hx hy
    unfold interpolatePlayer
    rw [hscan]
    exact lerpState_num_field _ _ _ _ _ _ _ hnd hx hy
  · intro a hscan hnd hx hy
    unfold interpolatePlayer
    rw [hscan]
    exact lerpState_num_field _ _ _ _ _ _ _ hnd hx hy

/-- The spec's bracketing example: snapshots at t=0 with value 0 and t=100
with value 100. -/
def interpSnaps : List Snapshot :=
  [{ time := 0, state := [("x", Value.num 0)] },
   { time := 100, state := [("x", Value.num 100)] }]

/-- Claim C7 witness: the bracketing example queried at render time 50
yields value 50, whatever the live value was. -/
theorem claim_C7_witness :
    getKey (interpolatePlayer [("x", Value.num 7)] interpSnaps 50) "x"
      = some (Value.num 50) := by
  have h := ((claim_C7_interpolation [("x", Value.num 7)] interpSnaps 50
      "x" 0 100).1
    { time := 0, state := [("x", Value.num 0)] }
    { time := 100, state := [("x", Value.num 100)] }
    (by decide) (by decide) rfl rfl).2.2
  rw [h]
  norm_num [min_def]

/-- The concrete scenario refuting claim C8: a remote peer `p2` with one
buffered snapshot and one still-queued jitter item. -/
def c8State : SyncState :=
  { baseState with
      players := [("me", [("x", Value.num 1)]),
                  ("p2", [("y", Value.num 0)])]
      snapshots := [("p2", [{ time := 40, state := [("y", Value.num 0)] }])]
      jitterQueue := [{ deliverAt := 100, playerId := "p2",
                        state := [("y", Value.num 5)], timestamp := 60 }] }

/-- Claim C8 counterexample: the departure of `p2` removes its collection
entry and snapshots but leaves its jitter-queue item in place, and the next
jitter tick recreates `p2` from that leftover buffered data. -/
theorem claim_C8_counterexample :
    getKey (removePlayer c8State "p2").players "p2" = none ∧
    (removePlayer c8State "p2").jitterQueue = c8State.jitterQueue ∧
    getKey (processJitterQueue 100 (removePlayer c8State "p2")).players
      "p2" = some [("y", Value.num 5)] := by
  refine ⟨rfl, rfl, ?_⟩
  rfl

/-- Claim C8 (amended): a `leave` message for peer `p` deletes `p`'s
collection entry and its SnapshotBuffer history, but does not discard `p`'s
pending JitterQueue items — the queue is left exactly as it was, so a later
jitter tick can recreate `p` from it. -/
theorem claim_C8_leave_discards (s : SyncState) (pid : String) :
    getKey (removePlayer s pid).players pid = none ∧
    getKey (removePlayer s pid).snapshots pid = none ∧
    (removePlayer s pid).jitterQueue = s.jitterQueue :=
  ⟨getKey_eraseKey_self _ _, getKey_eraseKey_self _ _, rfl⟩

/-- Claim C9: after an explicit `leave()`, the pending retry timer is
cancelled, the close event that `leave()`'s own `ws.close()` later delivers
leaves the state exactly as `leave()` left it (the reconnection guard sees
`roomId = null`), any number of further close events still schedule
nothing, and a second `leave()` is a no-op. -/
theorem claim_C9_leave_no_reconnect (s : SyncState) :
    (leave s).reconnectTimeout = none ∧
    handleClose (leave s) = leave s ∧
    (∀ n : ℕ, handleClose^[n] (leave s) = leave s) ∧
    leave (leave s) = leave s := by
  have hfix : handleClose (leave s) = leave s := by
    cases s
    simp [handleClose, leave, clearRemotePlayers, attemptReconnect]
  refine ⟨rfl, hfix, fun n => Function.iterate_fixed hfix n, ?_⟩
  cases s
  simp [leave, clearRemotePlayers, List.filter_filter]

/-- Promotion of the single due queue item: the jitter tick inserts the
snapshot under the item's own `timestamp`. -/
theorem processJitterQueue_single (now2 : ℚ) (s : SyncState)
    (it : JitterItem) (hq : s.jitterQueue = [it])
    (hdue : it.deliverAt ≤ now2) (hts : it.timestamp ≠ 0) :
    getKey (processJitterQueue now2 s).snapshots it.playerId
      = some (addSnapshotBuf ((getKey s.snapshots it.playerId).getD [])
          { time := it.timestamp, state := it.state }) := by
  unfold processJitterQueue
  rw [hq]
  have h1 : List.filter (fun x => decide (x.deliverAt ≤ now2)) [it]
      = [it] := by simp [hdue]
  have h2 : List.filter (fun x => decide (now2 < x.deliverAt)) [it]
      = [] := by simp [not_lt.mpr hdue]
  rw [h1, h2]
  simp only [List.foldl_cons, List.foldl_nil]
  unfold addSnapshot
  simp only [if_neg hts]
  simp [getKey_setKey_self]

/-- Claim C10: with the jitter buffer enabled, receiving a `state` message
queues an item whose `timestamp` is the server-adjusted receipt time
`serverTime + offset` and whose `deliverAt` is that plus the jitter delay
(a strictly later instant); and the jitter tick that promotes the item
inserts the snapshot under the original `timestamp`, not `deliverAt`
(`serverTime` and the adjusted timestamp are taken nonzero, since a zero is
falsy in JS and falls back to the local clock). -/
theorem claim_C10_jitter_original_timestamp (s : SyncState) (pid : String)
    (rec : Rec) (st now now2 : ℚ)
    (hint : s.options.interpolate = true)
    (hjb : 0 < s.options.jitterBuffer)
    (hst : st ≠ 0)
    (hts : st + s.serverTimeOffset ≠ 0)
    (hq : s.jitterQueue = [])
    (hdue : st + s.serverTimeOffset + s.options.jitterBuffer ≤ now2) :
    (applyPlayerState now s pid rec (some st)).jitterQueue
      = [{ deliverAt := st + s.serverTimeOffset + s.options.jitterBuffer,
           playerId := pid, state := rec,
           timestamp := st + s.serverTimeOffset }] ∧
    st + s.serverTimeOffset + s.options.jitterBuffer
      ≠ st + s.serverTimeOffset ∧
    getKey (processJitterQueue now2
        (applyPlayerState now s pid rec (some st))).snapshots pid
      = some (addSnapshotBuf ((getKey s.snapshots pid).getD [])
          { time := st + s.serverTimeOffset, state := rec }) := by
  have h1 : applyPlayerState now s pid rec (some st)
      = { s with jitterQueue :=
          [{ deliverAt := st + s.serverTimeOffset + s.options.jitterBuffer,
             playerId := pid, state := rec,
             timestamp := st + s.serverTimeOffset }] } := by
    simp [applyPlayerState, hq, hst, hint, hjb]
  refine ⟨by rw [h1], by intro h; nlinarith, ?_⟩
  rw [h1]
  exact processJitterQueue_single now2 _
    { deliverAt := st + s.serverTimeOffset + s.options.jitterBuffer,
      playerId := pid, state := rec,
      timestamp := st + s.serverTimeOffset } rfl hdue hts

/-- A `Sync` instance with a 50 ms jitter buffer and a clock offset of
-20 ms. -/
def jitterState : SyncState :=
  { baseState with
      options := { defaultOptions with jitterBuffer := 50 }
      serverTimeOffset := -20 }

/-- Claim C10 witness: a message with `serverTime = 100` under offset -20
and jitter delay 50 is queued with timestamp 80 and deliverAt 130, and its
promotion at time 200 stores a snapshot timed 80, not 130. -/
theorem claim_C10_witness :
    (applyPlayerState 0 jitterState "p2" [("x", Value.num 3)]
        (some 100)).jitterQueue
      = [{ deliverAt := 130, playerId := "p2",
           state := [("x", Value.num 3)], timestamp := 80 }] ∧
    getKey (processJitterQueue 200 (applyPlayerState 0 jitterState "p2"
        [("x", Value.num 3)] (some 100))).snapshots "p2"
      = some [{ time := 80, state := [("x", Value.num 3)] }] := by
  have h := claim_C10_jitter_original_timestamp jitterState "p2"
    [("x", Value.num 3)] 100 0 200 rfl
    (by norm_num [jitterState, defaultOptions, baseState])
    (by norm_num)
    (by norm_num [jitterState, baseState])
    rfl
    (by norm_num [jitterState, defaultOptions, baseState])
  constructor
  · rw [h.1]
    norm_num [jitterState, defaultOptions, baseState]
  · rw [h.2.2]
    norm_num [jitterState, baseState, addSnapshotBuf, evictOldest_eq_drop,
      getKey, Option.getD]

end Watchtower
